import Mathlib

/-
  Verification of the volga network buffering/acknowledgment layer.

  Shallow embedding of:
    src/rust/src/network/channel.rs      (Channel descriptor)
    src/rust/src/network/buffer_queue.rs (send-side BufferQueue)
    src/rust/src/network/data_reader.rs  (receive-side DataReader)

  The source files carry unresolved merge-conflict markers; where the two
  sides differ behaviourally the embedding follows the incoming
  "[Rustify Network] Acks WIP" side, which is the one the repository
  documentation describes (metadata stamping in try_push, the cursor bound
  check in schedule_next, the break on the first unacknowledged head in
  request_pop, the u32 buffer-id sequence).

  Machine integers are modelled as Nat/Int with explicit wrapping where the
  source uses fixed-width arithmetic: the AtomicU8 schedule cursor wraps
  modulo 256, the AtomicU32 buffer-id sequence wraps modulo 2^32, and the
  i32 watermark arithmetic of the dispatcher wraps through wrap32 (the
  two's-complement reduction into [-2^31, 2^31)).

  The helper module buffer_utils (get_buffer_id, new_buffer_with_meta,
  new_buffer_drop_meta) is not part of the sources; the three functions are
  modelled from the spec's description of Buffer metadata.
-/

/-- Payload bytes of one message. -/
abbrev Payload := List Nat

/-- A buffer: opaque payload plus transport metadata, per the spec's data
model (channel id and per-channel sequence number).  The Rust code keeps
the metadata serialized inside the byte buffer; the model keeps it as
fields. -/
structure Buffer where
  channel_id : String
  buffer_id : Nat
  payload : Payload
deriving DecidableEq, Repr

/-- Ack wire record, the logical shape of channel.rs / data_reader.rs
AckMessage: channel id plus acknowledged buffer id. -/
structure AckMessage where
  channel_id : String
  buffer_id : Nat
deriving DecidableEq, Repr

/-- Channel descriptor from channel.rs: local or remote variant. -/
inductive Channel where
  | Local (channel_id : String) (ipc_addr : String)
  | Remote (channel_id : String)
      (source_local_ipc_addr source_node_ip source_node_id : String)
      (target_local_ipc_addr target_node_ip target_node_id : String)
      (port : Int)
deriving DecidableEq, Repr

/-- Channel.get_channel_id from channel.rs. -/
def Channel.get_channel_id : Channel → String
  | .Local channel_id _ => channel_id
  | .Remote channel_id _ _ _ _ _ _ _ => channel_id

/-- Modelled from the spec: buffer_utils.get_buffer_id reads the buffer's
u32 sequence number from its metadata (hence the reduction modulo 2^32). -/
def get_buffer_id (b : Buffer) : Nat := b.buffer_id % 4294967296

/-- Modelled from the spec: buffer_utils.new_buffer_with_meta stamps the
channel id and the freshly assigned u32 buffer id onto a payload. -/
def new_buffer_with_meta (p : Payload) (c : String) (id : Nat) : Buffer :=
  ⟨c, id, p⟩

/-- Modelled from the spec: buffer_utils.new_buffer_drop_meta strips the
metadata, leaving the bare payload. -/
def new_buffer_drop_meta (b : Buffer) : Payload := b.payload

/-- Two's-complement wrap of an integer into the i32 range [-2^31, 2^31):
the value a Rust i32 holds after wrapping arithmetic. -/
def wrap32 (x : Int) : Int :=
  let r := x % 4294967296
  if r < 2147483648 then r else r - 4294967296

/-- Reinterpretation of a u32 value as an i32 (the buffer_id as i32 cast in
data_reader.rs). -/
def toI32 (n : Nat) : Int := wrap32 n

theorem wrap32_eq_self (x : Int) (h1 : -2147483648 ≤ x) (h2 : x < 2147483648) :
    wrap32 x = x := by
  unfold wrap32
  rcases le_or_lt 0 x with hx | hx
  · rw [Int.emod_eq_of_lt hx (by omega)]
    simp only []
    omega
  · have he : x % 4294967296 = x + 4294967296 := by
      have : (x + 4294967296) % 4294967296 = x % 4294967296 := by
        omega
      rw [← this, Int.emod_eq_of_lt (by omega) (by omega)]
    rw [he]
    simp only []
    omega

theorem wrap32_lb (x : Int) : -2147483648 ≤ wrap32 x := by
  unfold wrap32
  have h0 : 0 ≤ x % 4294967296 := Int.emod_nonneg x (by norm_num)
  simp only []
  split <;> omega

theorem wrap32_ub (x : Int) : wrap32 x < 2147483648 := by
  unfold wrap32
  have h1 : x % 4294967296 < 4294967296 := Int.emod_lt_of_pos x (by norm_num)
  simp only []
  split <;> omega

theorem toI32_eq_of_lt (n : Nat) (h : n < 2147483648) : toI32 n = n := by
  unfold toI32
  exact wrap32_eq_self n (by omega) (by exact_mod_cast h)

theorem toI32_nonneg_elim (n : Nat) (hn : n < 4294967296) (h : 0 ≤ toI32 n) :
    n < 2147483648 ∧ toI32 n = n := by
  by_cases hlt : n < 2147483648
  · exact ⟨hlt, toI32_eq_of_lt n hlt⟩
  · exfalso
    unfold toI32 wrap32 at h
    have he : (n : Int) % 4294967296 = n :=
      Int.emod_eq_of_lt (by omega) (by exact_mod_cast hn)
    rw [he] at h
    simp only [] at h
    split at h <;> omega

/- ===================================================================
   Send side: BufferQueue (buffer_queue.rs)
   =================================================================== -/

/-- MAX_BUFFERS_PER_CHANNEL from buffer_queue.rs. -/
def MAX_BUFFERS_PER_CHANNEL : Nat := 10

/-- State of one BufferQueue instance.  The Rust struct keys four maps by
channel id; the model uses total functions from channel id (lookups of an
unregistered channel panic in Rust and are never performed by the claims).
schedule_index is an AtomicU8 (value < 256), buffer_ids_seq an AtomicU32
(value < 2^32), pop_requests a HashSet of u32 ids.  pushedLog and
evictedLog are ghost histories (stamped ids in push order, evicted ids in
pop order) used only to state theorems; no operation reads them. -/
structure QState where
  in_queues : String → List Buffer
  schedule_index : String → Nat
  buffer_ids_seq : String → Nat
  pop_requests : String → List Nat
  pushedLog : String → List Nat
  evictedLog : String → List Nat

/-- BufferQueue.new: every per-channel structure starts empty / zero. -/
def QState.init : QState :=
  { in_queues := fun _ => []
    schedule_index := fun _ => 0
    buffer_ids_seq := fun _ => 0
    pop_requests := fun _ => []
    pushedLog := fun _ => []
    evictedLog := fun _ => [] }

/-- BufferQueue.try_push: refuse when the channel queue holds
MAX_BUFFERS_PER_CHANNEL buffers; otherwise fetch_add the u32 sequence
counter, stamp the id onto the payload and append at the tail. -/
def try_push (c : String) (p : Payload) (s : QState) : Bool × QState :=
  if (s.in_queues c).length = MAX_BUFFERS_PER_CHANNEL then
    (false, s)
  else
    let id := s.buffer_ids_seq c
    (true,
      { s with
        in_queues := Function.update s.in_queues c
          (s.in_queues c ++ [new_buffer_with_meta p c id])
        buffer_ids_seq := Function.update s.buffer_ids_seq c ((id + 1) % 4294967296)
        pushedLog := Function.update s.pushedLog c (s.pushedLog c ++ [id]) })

/-- BufferQueue.schedule_next: peek the buffer at the schedule cursor
without popping, then advance the cursor.  None when the queue is empty or
when the cursor has reached the queue length (the length compared as u8,
the AtomicU8 cursor advanced with wrapping fetch_add).  The source unwraps
the indexed access; for queue lengths at most 255 (the length never
exceeds MAX_BUFFERS_PER_CHANNEL = 10) the checked branch makes the access
in range, so the Option result here is always some in that regime. -/
def schedule_next (c : String) (s : QState) : Option Buffer × QState :=
  if (s.in_queues c).length = 0 then
    (none, s)
  else
    let i := s.schedule_index c
    if (s.in_queues c).length % 256 ≤ i then
      (none, s)
    else
      ((s.in_queues c).get? i,
        { s with schedule_index := Function.update s.schedule_index c ((i + 1) % 256) })

/-- Result of the request_pop eviction scan. -/
structure PopRes where
  queue : List Buffer
  acked : List Nat
  cursor : Nat
  log : List Nat

/-- The while loop of BufferQueue.request_pop: while the head buffer's id
is in the acknowledged set, pop it, clear its ack record and fetch_sub the
u8 cursor (wrapping); break at the first unacknowledged head.  log is the
ghost eviction history. -/
def popLoop : List Buffer → List Nat → Nat → List Nat → PopRes
  | [], acked, cursor, log => ⟨[], acked, cursor, log⟩
  | b :: rest, acked, cursor, log =>
    if get_buffer_id b ∈ acked then
      popLoop rest (acked.erase (get_buffer_id b)) ((cursor + 255) % 256)
        (log ++ [get_buffer_id b])
    else
      ⟨b :: rest, acked, cursor, log⟩

/-- HashSet.insert on the model of the pop-request set. -/
def setInsert (x : Nat) (l : List Nat) : List Nat :=
  if x ∈ l then l else l ++ [x]

/-- BufferQueue.request_pop: record the acknowledged id, then evict the
acknowledged prefix from the queue head. -/
def request_pop (c : String) (buffer_id : Nat) (s : QState) : QState :=
  let acked := setInsert buffer_id (s.pop_requests c)
  let r := popLoop (s.in_queues c) acked (s.schedule_index c) (s.evictedLog c)
  { s with
    in_queues := Function.update s.in_queues c r.queue
    pop_requests := Function.update s.pop_requests c r.acked
    schedule_index := Function.update s.schedule_index c r.cursor
    evictedLog := Function.update s.evictedLog c r.log }

/-- External calls into one BufferQueue: a push of a payload, a transport
poll of the next retransmission candidate, or an incoming ack. -/
inductive QEv where
  | push (c : String) (p : Payload)
  | sched (c : String)
  | ack (c : String) (id : Nat)

/-- One BufferQueue call. -/
def qstep (s : QState) : QEv → QState
  | .push c p => (try_push c p s).2
  | .sched c => (schedule_next c s).2
  | .ack c id => request_pop c id s

/-- A sequence of BufferQueue calls from a given state. -/
def runQ (s : QState) (evs : List QEv) : QState := evs.foldl qstep s

/- ===================================================================
   Receive side: DataReader (data_reader.rs)
   =================================================================== -/

/-- The per-channel out-of-order map (HashMap<i32, Box<Bytes>>), modelled
as an association list over the i32 keys.  Order of entries is irrelevant:
all access goes through mlookup / merase, and insertion happens only for
absent keys. -/
abbrev IMap := List (Int × Buffer)

/-- HashMap lookup on the out-of-order map. -/
def mlookup (k : Int) : IMap → Option Buffer
  | [] => none
  | (k2, b) :: t => if k2 = k then some b else mlookup k t

/-- HashMap remove on the out-of-order map. -/
def merase (k : Int) : IMap → IMap
  | [] => []
  | (k2, b) :: t => if k2 = k then t else (k2, b) :: merase k t

/-- HashMap insert of an absent key on the out-of-order map. -/
def minsert (k : Int) (b : Buffer) (m : IMap) : IMap := m ++ [(k, b)]

/-- State of one DataReader instance.  recv_chans and send_chans are the
per-channel feeds (the model stores the pending inbound buffers and the
emitted acks; serialization and the metrics recorder are external
collaborators and are not modelled).  The shared out_queue stores, in the
Rust code, metadata-stripped payloads; the model tags each entry with the
feed channel and the undropped buffer (ghost data used only to state
per-channel ordering: new_buffer_drop_meta is applied when the consumer
pops).  popped is the ghost history of consumer pops. -/
structure RState where
  channels : List String
  recvQ : String → List Buffer
  sendAcks : String → List AckMessage
  watermark : String → Int
  ooo : String → IMap
  outQ : List (String × Buffer)
  popped : List (String × Nat)
  cfg : Nat

/-- DataReader.new: watermark -1 and empty out-of-order map per channel,
empty shared out queue; cfg is config.output_queue_size. -/
def RState.init (chs : List String) (cfg : Nat) : RState :=
  { channels := chs
    recvQ := fun _ => []
    sendAcks := fun _ => []
    watermark := fun _ => -1
    ooo := fun _ => []
    outQ := []
    popped := []
    cfg := cfg }

/-- Result of the contiguous drain loop. -/
structure DrainRes where
  m : IMap
  outQ : List (String × Buffer)
  acks : List AckMessage
  next : Int

/-- The while loop inside DataReader.start: while the out-of-order map
contains key next_wm, stop if the shared out queue is full, otherwise move
the entry to the out queue, emit an ack for its id, remove it from the map
and increment next_wm (i32, wrapping).  fuel bounds the iteration count;
the caller passes the map size, which suffices because every iteration
removes one entry. -/
def drainGo (c : String) : Nat → IMap → List (String × Buffer) → List AckMessage → Int → Nat → DrainRes
  | 0, m, outQ, acks, next_wm, _ => ⟨m, outQ, acks, next_wm⟩
  | fuel + 1, m, outQ, acks, next_wm, cfg =>
    match mlookup next_wm m with
    | none => ⟨m, outQ, acks, next_wm⟩
    | some b =>
      if outQ.length = cfg then
        ⟨m, outQ, acks, next_wm⟩
      else
        drainGo c fuel (merase next_wm m) (outQ ++ [(c, b)])
          (acks ++ [⟨c, get_buffer_id b⟩]) (wrap32 (next_wm + 1)) cfg

/-- The receive state machine of DataReader.start for one buffer taken
from channel c's recv feed: stale (id as i32 at or below the watermark)
and in-flight duplicate (id already an out-of-order key) are discarded
with an ack re-emission; otherwise the buffer is inserted and the
contiguous drain runs, after which the watermark is stored (i32,
wrapping). -/
def processBuffer (c : String) (b : Buffer) (s : RState) : RState :=
  let bid := get_buffer_id b
  let wm := s.watermark c
  if toI32 bid ≤ wm then
    { s with sendAcks := Function.update s.sendAcks c (s.sendAcks c ++ [⟨c, bid⟩]) }
  else if (mlookup (toI32 bid) (s.ooo c)).isSome then
    { s with sendAcks := Function.update s.sendAcks c (s.sendAcks c ++ [⟨c, bid⟩]) }
  else
    let m1 := minsert (toI32 bid) b (s.ooo c)
    let r := drainGo c m1.length m1 s.outQ [] (wrap32 (wm + 1)) s.cfg
    { s with
      ooo := Function.update s.ooo c r.m
      outQ := r.outQ
      sendAcks := Function.update s.sendAcks c (s.sendAcks c ++ r.acks)
      watermark := Function.update s.watermark c (wrap32 (r.next - 1)) }

/-- One channel visit of the dispatcher sweep: skip the channel while the
shared out queue is full (the continue in DataReader.start), otherwise
try_recv one buffer from the channel's recv feed and run the receive state
machine on it. -/
def channelVisit (s : RState) (c : String) : RState :=
  if s.outQ.length = s.cfg then
    s
  else
    match s.recvQ c with
    | [] => s
    | b :: rest => processBuffer c b { s with recvQ := Function.update s.recvQ c rest }

/-- One full dispatcher sweep over all owned channels. -/
def sweep (s : RState) : RState := s.channels.foldl channelVisit s

/-- DataReader.read_bytes: non-blocking pop from the shared out queue.
The Rust code stores stripped payloads; the model strips here (see RState)
and records the pop in the ghost history. -/
def read_bytes (s : RState) : Option Payload × RState :=
  match s.outQ with
  | [] => (none, s)
  | (c, b) :: rest =>
    (some (new_buffer_drop_meta b),
      { s with outQ := rest, popped := s.popped ++ [(c, get_buffer_id b)] })

/-- Events driving one DataReader: the external transport feeding a buffer
into a channel's recv feed, the dispatcher visiting one channel (HashMap
key order is arbitrary, so single visits are the primitive), a full
dispatcher sweep, and a consumer poll. -/
inductive REv where
  | feed (c : String) (b : Buffer)
  | visit (c : String)
  | sweep
  | pop

/-- One DataReader event. -/
def rstep (s : RState) : REv → RState
  | .feed c b => { s with recvQ := Function.update s.recvQ c (s.recvQ c ++ [b]) }
  | .visit c => channelVisit s c
  | .sweep => sweep s
  | .pop => (read_bytes s).2

/-- A sequence of DataReader events from a given state. -/
def runR (s : RState) (evs : List REv) : RState := evs.foldl rstep s

/-- The buffer ids delivered to the shared output stream for channel c, in
delivery order: first those already popped by the consumer, then those
still queued. -/
def deliveredIds (c : String) (s : RState) : List Nat :=
  (s.popped.filter (fun p => p.1 = c)).map Prod.snd
    ++ (s.outQ.filter (fun e => e.1 = c)).map (fun e => get_buffer_id e.2)

/-- The buffer ids the consumer has observed through read_bytes for
channel c, in pop order. -/
def observedIds (c : String) (s : RState) : List Nat :=
  (s.popped.filter (fun p => p.1 = c)).map Prod.snd

/- ===================================================================
   Lifecycle (IOHandler start/close of data_reader.rs)
   =================================================================== -/

/-- Observable lifecycle actions of DataReader.start / DataReader.close,
in program order: flag stores, metrics start/flush, dispatcher loop spawn
and join. -/
inductive LAct where
  | setRunning (b : Bool)
  | metricsStart
  | spawn (i : Nat)
  | join (i : Nat)
  | metricsClose
deriving DecidableEq, Repr

/-- Lifecycle state: the running flag, how many dispatcher loops were ever
spawned, the contents of the one-slot ArrayQueue of join handles (handles
named by spawn index), and the trace of actions. -/
structure LState where
  running : Bool
  spawnedLoops : Nat
  handles : List Nat
  trace : List LAct
deriving DecidableEq, Repr

/-- DataReader.new: not running, no loop spawned, empty handle queue. -/
def LState.init : LState :=
  { running := false, spawnedLoops := 0, handles := [], trace := [] }

/-- DataReader.start: unconditionally store running = true, start metrics,
spawn a dispatcher loop, then push its handle into the one-slot
ArrayQueue.  The returned Bool is true when the final unwrap panics: the
push fails because the slot already holds a handle (the spawn has happened
by then).  No running-flag guard exists in the code. -/
def lstart (s : LState) : LState × Bool :=
  let i := s.spawnedLoops
  let s1 : LState :=
    { running := true
      spawnedLoops := i + 1
      handles := s.handles
      trace := s.trace ++ [.setRunning true, .metricsStart, .spawn i] }
  if s.handles.length ≥ 1 then
    (s1, true)
  else
    ({ s1 with handles := s.handles ++ [i] }, false)

/-- DataReader.close: store running = false, pop the handle queue and
unwrap (panic when empty — returned Bool true), join the loop, then flush
metrics. -/
def lclose (s : LState) : LState × Bool :=
  let s1 : LState := { s with running := false, trace := s.trace ++ [.setRunning false] }
  match s.handles with
  | [] => (s1, true)
  | h :: t =>
    ({ s1 with handles := t, trace := s1.trace ++ [.join h, .metricsClose] }, false)

/- ===================================================================
   Concrete scenarios used by the theorems
   =================================================================== -/

/-- Buffer id 0 with payload [10] on channel c. -/
def bufA0 : Buffer := ⟨"c", 0, [10]⟩
/-- Buffer id 1 with payload [11] on channel c. -/
def bufA1 : Buffer := ⟨"c", 1, [11]⟩
/-- Buffer id 2 with payload [12] on channel c. -/
def bufA2 : Buffer := ⟨"c", 2, [12]⟩
/-- Buffer id 5 with payload [15] on channel c. -/
def bufA5 : Buffer := ⟨"c", 5, [15]⟩

/-- A DataReader with output_queue_size 1 after the transport delivered
ids 0, 1, 2 in order on channel c and the dispatcher ran three sweeps
with no consumer pop. -/
def rdBackpressure : RState :=
  runR (RState.init ["c"] 1)
    [.feed "c" bufA0, .feed "c" bufA1, .feed "c" bufA2, .sweep, .sweep, .sweep]

/-- A DataReader (output_queue_size 10) that received only buffer id 5,
twice, and swept both deliveries. -/
def rdDupOnly : RState :=
  runR (RState.init ["c"] 10) [.feed "c" bufA5, .feed "c" bufA5, .sweep, .sweep]

/-- A DataReader (output_queue_size 10) that received ids 0,1,2,3,4, then
id 5 twice, and swept all seven deliveries. -/
def rdDupAfterPrefix : RState :=
  runR (RState.init ["c"] 10)
    [.feed "c" ⟨"c", 0, [20]⟩, .feed "c" ⟨"c", 1, [21]⟩, .feed "c" ⟨"c", 2, [22]⟩,
     .feed "c" ⟨"c", 3, [23]⟩, .feed "c" ⟨"c", 4, [24]⟩, .feed "c" bufA5, .feed "c" bufA5,
     .sweep, .sweep, .sweep, .sweep, .sweep, .sweep, .sweep]

/-- A dispatcher sweep leaves the state untouched while the shared out
queue is full: every channel visit takes the continue branch. -/
theorem sweep_id_of_full (s : RState) (h : s.outQ.length = s.cfg) : sweep s = s := by
  unfold sweep
  generalize s.channels = l
  induction l with
  | nil => rfl
  | cons c cs ih =>
    rw [List.foldl_cons]
    have hv : channelVisit s c = s := by
      unfold channelVisit
      rw [if_pos h]
    rw [hv, ih]

/- ===================================================================
   Claim theorems: lifecycle (C6, C10)
   =================================================================== -/

/-- C10: calling close() on a DataReader whose start() was never called
panics instead of returning normally: the one-slot handle queue is still
empty, so the pop returns nothing and the unwrap fails. -/
theorem C10_close_without_start_panics :
    LState.init.handles = [] ∧ (lclose LState.init).2 = true := by
  decide

/-- C6 counterexample: start() is not guarded by the running flag.  A
second start() while the dispatcher is running is not a no-op: it spawns a
second dispatcher loop (spawnedLoops = 2) and then panics when pushing the
second join handle into the one-slot handle queue. -/
theorem C6_lifecycle_counterexample :
    (lstart (lstart LState.init).1).2 = true
      ∧ (lstart (lstart LState.init).1).1.spawnedLoops = 2 := by
  decide

/-- C6 (amended): start() unconditionally sets the running flag, starts
metrics and spawns a dispatcher loop; it is not idempotent: a second
start() while running spawns a second loop and then panics pushing its
handle into the one-slot handle queue.  close() clears the flag, joins the
stored loop and only then flushes metrics. -/
theorem C6_lifecycle_amended :
    lstart LState.init
        = ({ running := true, spawnedLoops := 1, handles := [0],
             trace := [.setRunning true, .metricsStart, .spawn 0] }, false)
      ∧ ((lstart (lstart LState.init).1).2 = true
          ∧ (lstart (lstart LState.init).1).1.spawnedLoops = 2)
      ∧ lclose (lstart LState.init).1
          = ({ running := false, spawnedLoops := 1, handles := [],
               trace := [.setRunning true, .metricsStart, .spawn 0,
                         .setRunning false, .join 0, .metricsClose] }, false) := by
  decide

/- ===================================================================
   Claim theorems: duplicate delivery (C9) and backpressure (C2)
   =================================================================== -/

/-- C9 counterexample: delivering only buffer id 5 twice (from a fresh
channel, watermark -1) does not produce the claimed one payload and two
acks: the first copy is parked in the out-of-order map without an ack
(ids 0..4 are still missing, so id 5 is never delivered to the output
stream), and only the second copy triggers a duplicate ack — one ack for
id 5 in total and no payload for id 5 in the output stream, even though
both deliveries have been consumed from the recv feed. -/
theorem C9_duplicate_delivery_counterexample :
    ((rdDupOnly.sendAcks "c").filter (fun a => a.buffer_id = 5)).length = 1
      ∧ (rdDupOnly.outQ.filter (fun e => get_buffer_id e.2 = 5)).length = 0
      ∧ rdDupOnly.outQ = []
      ∧ rdDupOnly.recvQ "c" = [] := by
  decide

/-- C9 (amended): delivering buffer id 5 twice on one channel, once ids
0 through 4 have also been delivered, results in exactly one payload for
id 5 reaching the output stream and exactly two acknowledgments emitted
for id 5 (one on delivery, one re-emitted for the stale duplicate). -/
theorem C9_duplicate_delivery_amended :
    ((rdDupAfterPrefix.sendAcks "c").filter (fun a => a.buffer_id = 5)).length = 2
      ∧ (rdDupAfterPrefix.outQ.filter (fun e => get_buffer_id e.2 = 5)).length = 1
      ∧ deliveredIds "c" rdDupAfterPrefix = [0, 1, 2, 3, 4, 5]
      ∧ rdDupAfterPrefix.recvQ "c" = [] := by
  decide

/-- C2 counterexample: with output_queue_size = 1 and no consumer
draining, delivering ids 0, 1, 2 in order leaves exactly the payload of
id 0 in the output stream, but ids 1 and 2 are not retained in the
channel's out-of-order map (it is empty): they are still parked in the
channel's recv feed, because the dispatcher skips a channel entirely —
before its try_recv — while the shared out queue is full. -/
theorem C2_backpressure_counterexample :
    rdBackpressure.outQ = [("c", bufA0)]
      ∧ rdBackpressure.ooo "c" = []
      ∧ rdBackpressure.recvQ "c" = [bufA1, bufA2] := by
  decide

/-- C2 (amended): the dispatcher drains contiguously — while the map
contains key W+1 and the output stream is below output_queue_size it moves
that entry to the stream, emits its ack and advances W, stopping the
moment the stream is full — and a full stream makes the whole sweep a
no-op.  With output_queue_size = 1 and no consumer draining, delivering
ids 0, 1, 2 in order leaves exactly the payload of id 0 in the output
stream and ids 1 and 2 retained in the channel's recv feed (not the
out-of-order map); each consumer pop then frees the single slot and the
next sweep receives and delivers exactly one further id. -/
theorem C2_backpressure_amended :
    (∀ t : RState, t.outQ.length = t.cfg → sweep t = t)
      ∧ (rdBackpressure.outQ = [("c", bufA0)]
          ∧ rdBackpressure.ooo "c" = []
          ∧ rdBackpressure.recvQ "c" = [bufA1, bufA2])
      ∧ ((read_bytes rdBackpressure).1 = some [10]
          ∧ (sweep (read_bytes rdBackpressure).2).outQ = [("c", bufA1)]
          ∧ (sweep (read_bytes rdBackpressure).2).recvQ "c" = [bufA2]
          ∧ (sweep (read_bytes rdBackpressure).2).ooo "c" = [])
      ∧ (sweep (read_bytes (sweep (read_bytes rdBackpressure).2)).2).outQ = [("c", bufA2)]
      ∧ (sweep (read_bytes (sweep (read_bytes rdBackpressure).2)).2).recvQ "c" = []
      ∧ deliveredIds "c" (sweep (read_bytes (sweep (read_bytes rdBackpressure).2)).2)
          = [0, 1, 2] := by
  refine ⟨sweep_id_of_full, ?_, ?_, ?_, ?_, ?_⟩ <;> decide

/-- C2 witness: the general no-op-while-full conjunct of the amended
theorem, applied to the concrete backpressured state (out queue holding
one element against output_queue_size 1). -/
theorem C2_backpressure_witness : sweep rdBackpressure = rdBackpressure :=
  C2_backpressure_amended.1 rdBackpressure (by decide)

/- ===================================================================
   Claim theorems: schedule_next (C8) and redundant delivery (C5)
   =================================================================== -/

/-- A BufferQueue holding the stamped buffers 0, 1, 2 on channel a
(payloads [30], [31], [32]). -/
def qThree : QState :=
  runQ QState.init [.push "a" [30], .push "a" [31], .push "a" [32]]

/-- C8: schedule_next returns the buffer at the schedule cursor without
removing it and advances the cursor by one; it returns nothing when the
queue is empty or when the cursor has reached the queue length, and in no
case does it modify any queue's contents (or any other field than the
cursor of the addressed channel).  The queue length is assumed at most 255
(it never exceeds MAX_BUFFERS_PER_CHANNEL = 10 in reachable states), so
the u8 cast of the length in the source is lossless. -/
theorem C8_schedule_next_spec (s : QState) (c : String)
    (hlen : (s.in_queues c).length ≤ 255) :
    ((schedule_next c s).2).in_queues = s.in_queues
    ∧ ((schedule_next c s).2).buffer_ids_seq = s.buffer_ids_seq
    ∧ ((schedule_next c s).2).pop_requests = s.pop_requests
    ∧ ((s.in_queues c).length = 0 → schedule_next c s = (none, s))
    ∧ ((s.in_queues c).length ≠ 0 → (s.in_queues c).length ≤ s.schedule_index c →
        schedule_next c s = (none, s))
    ∧ (s.schedule_index c < (s.in_queues c).length →
        (schedule_next c s).1 = (s.in_queues c).get? (s.schedule_index c)
        ∧ ((schedule_next c s).1).isSome
        ∧ ((schedule_next c s).2).schedule_index c = s.schedule_index c + 1
        ∧ (∀ c2, c2 ≠ c →
            ((schedule_next c s).2).schedule_index c2 = s.schedule_index c2)) := by
  have hmod : (s.in_queues c).length % 256 = (s.in_queues c).length :=
    Nat.mod_eq_of_lt (by omega)
  unfold schedule_next
  by_cases h0 : (s.in_queues c).length = 0
  · simp only [if_pos h0]
    refine ⟨trivial, trivial, trivial, fun _ => trivial, fun hne _ => absurd h0 hne,
      fun hlt => ?_⟩
    omega
  · simp only [if_neg h0, hmod]
    by_cases hge : (s.in_queues c).length ≤ s.schedule_index c
    · simp only [if_pos hge]
      refine ⟨trivial, trivial, trivial, fun h => absurd h h0, fun _ _ => trivial,
        fun hlt => ?_⟩
      omega
    · simp only [if_neg hge]
      push_neg at hge
      refine ⟨trivial, trivial, trivial, fun h => absurd h h0,
        fun _ hle => absurd hle (by omega), fun hlt => ⟨trivial, ?_, ?_, ?_⟩⟩
      · simp [List.getElem?_eq_getElem hlt]
      · simp only [Function.update_same]
        omega
      · intro c2 hne
        simp [Function.update_noteq hne]

/-- C8 witness: on the concrete three-buffer queue with cursor 0, the
specification instantiates to: the returned candidate is the stamped
buffer 0, the queues are untouched, and the cursor advances to 1. -/
theorem C8_schedule_next_witness :
    (schedule_next "a" qThree).1 = some (new_buffer_with_meta [30] "a" 0)
    ∧ ((schedule_next "a" qThree).2).in_queues = qThree.in_queues
    ∧ ((schedule_next "a" qThree).2).schedule_index "a" = 1 := by
  have h := C8_schedule_next_spec qThree "a" (by decide)
  have h3 := h.2.2.2.2.2 (by decide)
  exact ⟨h3.1.trans (by decide), h.1, h3.2.2.1.trans (by decide)⟩

/-- C5: a stale buffer (id as i32 at or below the channel watermark) or an
in-flight duplicate (id already a key of the channel's out-of-order map)
is discarded: the output stream, the out-of-order maps, the watermarks and
the recv feeds are all left unchanged, and exactly one acknowledgment for
the buffer's id is appended to the channel's send feed.  No error is
raised: both branches are ordinary control flow of the dispatcher. -/
theorem C5_redundant_delivery_discard (s : RState) (c : String) (b : Buffer)
    (h : toI32 (get_buffer_id b) ≤ s.watermark c
        ∨ (mlookup (toI32 (get_buffer_id b)) (s.ooo c)).isSome) :
    (processBuffer c b s).outQ = s.outQ
    ∧ (processBuffer c b s).ooo = s.ooo
    ∧ (processBuffer c b s).watermark = s.watermark
    ∧ (processBuffer c b s).recvQ = s.recvQ
    ∧ (processBuffer c b s).popped = s.popped
    ∧ (processBuffer c b s).sendAcks c = s.sendAcks c ++ [⟨c, get_buffer_id b⟩]
    ∧ (∀ c2, c2 ≠ c → (processBuffer c b s).sendAcks c2 = s.sendAcks c2) := by
  unfold processBuffer
  by_cases h1 : toI32 (get_buffer_id b) ≤ s.watermark c
  · simp only [if_pos h1]
    refine ⟨trivial, trivial, trivial, trivial, trivial, by simp [Function.update_same], ?_⟩
    intro c2 hne
    simp [Function.update_noteq hne]
  · have h2 : (mlookup (toI32 (get_buffer_id b)) (s.ooo c)).isSome := h.resolve_left h1
    simp only [if_neg h1, if_pos h2]
    refine ⟨trivial, trivial, trivial, trivial, trivial, by simp [Function.update_same], ?_⟩
    intro c2 hne
    simp [Function.update_noteq hne]

/-- C5 witness: against the concrete reader whose channel-c watermark is 5,
a further copy of buffer 5 is stale; the specification instantiates to:
states untouched except one more ack for id 5 on channel c's send feed. -/
theorem C5_redundant_delivery_witness :
    (processBuffer "c" bufA5 rdDupAfterPrefix).outQ = rdDupAfterPrefix.outQ
    ∧ (processBuffer "c" bufA5 rdDupAfterPrefix).ooo = rdDupAfterPrefix.ooo
    ∧ (processBuffer "c" bufA5 rdDupAfterPrefix).watermark = rdDupAfterPrefix.watermark
    ∧ (processBuffer "c" bufA5 rdDupAfterPrefix).sendAcks "c"
        = rdDupAfterPrefix.sendAcks "c" ++ [⟨"c", 5⟩] := by
  have h := C5_redundant_delivery_discard rdDupAfterPrefix "c" bufA5 (Or.inl (by decide))
  exact ⟨h.1, h.2.1, h.2.2.1, h.2.2.2.2.2.1⟩

/- ===================================================================
   Claim theorems: request_pop (C3) and the cursor invariant (C7)
   =================================================================== -/

theorem takeWhile_congr_on {α : Type} (p q : α → Bool) :
    ∀ l : List α, (∀ x ∈ l, p x = q x) → l.takeWhile p = l.takeWhile q := by
  intro l
  induction l with
  | nil => intro _; rfl
  | cons a t ih =>
    intro h
    have ha := h a (by simp)
    simp only [List.takeWhile_cons, ha]
    by_cases hq : q a
    · simp only [hq, if_pos rfl]
      rw [ih (fun x hx => h x (by simp [hx]))]
    · simp [hq]

theorem drop_length_takeWhile {α : Type} (p : α → Bool) (l : List α) :
    l.drop (l.takeWhile p).length = l.dropWhile p := by
  induction l with
  | nil => rfl
  | cons a t ih =>
    by_cases hp : p a
    · simp [List.takeWhile_cons, List.dropWhile_cons, hp, ih]
    · simp [List.takeWhile_cons, List.dropWhile_cons, hp]

theorem popLoop_acked_sub :
    ∀ (queue : List Buffer) (acked : List Nat) (cur : Nat) (log : List Nat),
      ∀ x ∈ (popLoop queue acked cur log).acked, x ∈ acked := by
  intro queue
  induction queue with
  | nil => intro acked cur log x hx; exact hx
  | cons b rest ih =>
    intro acked cur log x hx
    unfold popLoop at hx
    by_cases hb : get_buffer_id b ∈ acked
    · simp only [if_pos hb] at hx
      exact List.erase_subset _ _ (ih _ _ _ x hx)
    · simp only [if_neg hb] at hx
      exact hx

/-- Characterization of the request_pop eviction loop, assuming distinct
buffer ids in the queue and a duplicate-free acknowledged set: it removes
exactly the longest queue prefix whose ids lie in the acknowledged set,
appends those ids to the eviction history in queue order, clears their ack
records, and applies one wrapping u8 decrement of the cursor per
removal. -/
theorem popLoop_spec :
    ∀ (queue : List Buffer) (acked : List Nat) (cur : Nat) (log : List Nat),
      (queue.map get_buffer_id).Nodup → acked.Nodup → cur < 256 →
      (popLoop queue acked cur log).queue
          = queue.drop (queue.takeWhile (fun b => decide (get_buffer_id b ∈ acked))).length
      ∧ (popLoop queue acked cur log).log
          = log ++ (queue.take
              (queue.takeWhile (fun b => decide (get_buffer_id b ∈ acked))).length).map get_buffer_id
      ∧ (∀ b2 ∈ queue.take
            (queue.takeWhile (fun b => decide (get_buffer_id b ∈ acked))).length,
          get_buffer_id b2 ∉ (popLoop queue acked cur log).acked)
      ∧ (popLoop queue acked cur log).cursor
          = (cur + 255 * (queue.takeWhile
              (fun b => decide (get_buffer_id b ∈ acked))).length) % 256 := by
  intro queue
  induction queue with
  | nil =>
    intro acked cur log _ _ hcur
    refine ⟨rfl, by simp [popLoop], by simp, ?_⟩
    simp [popLoop, Nat.mod_eq_of_lt hcur]
  | cons b rest ih =>
    intro acked cur log hnd hand hcur
    simp only [List.map_cons, List.nodup_cons] at hnd
    by_cases hb : get_buffer_id b ∈ acked
    · have hk : ((b :: rest).takeWhile (fun b2 => decide (get_buffer_id b2 ∈ acked))).length
          = (rest.takeWhile (fun b2 => decide (get_buffer_id b2 ∈ acked))).length + 1 := by
        simp [List.takeWhile_cons, hb]
      have hpl : popLoop (b :: rest) acked cur log
          = popLoop rest (acked.erase (get_buffer_id b)) ((cur + 255) % 256)
              (log ++ [get_buffer_id b]) := by
        rw [popLoop, if_pos hb]
      have hcongr : rest.takeWhile
            (fun b2 => decide (get_buffer_id b2 ∈ acked.erase (get_buffer_id b)))
          = rest.takeWhile (fun b2 => decide (get_buffer_id b2 ∈ acked)) := by
        apply takeWhile_congr_on
        intro x hx
        have hne : get_buffer_id x ≠ get_buffer_id b := by
          intro he
          exact hnd.1 (he ▸ List.mem_map_of_mem get_buffer_id hx)
        simp [List.mem_erase_of_ne hne]
      have ihh := ih (acked.erase (get_buffer_id b)) ((cur + 255) % 256)
        (log ++ [get_buffer_id b]) hnd.2 (hand.erase _) (Nat.mod_lt _ (by omega))
      rw [hcongr] at ihh
      rw [hpl, hk]
      refine ⟨?_, ?_, ?_, ?_⟩
      · rw [ihh.1]
        simp
      · rw [ihh.2.1]
        simp
      · intro b2 hb2
        simp only [List.take_succ_cons, List.mem_cons] at hb2
        rcases hb2 with he | hm
        · subst he
          intro hmem
          have hsub := popLoop_acked_sub rest (acked.erase (get_buffer_id b2))
            ((cur + 255) % 256) (log ++ [get_buffer_id b2]) _ hmem
          exact (hand.not_mem_erase) hsub
        · exact ihh.2.2.1 b2 hm
      · rw [ihh.2.2.2]
        omega
    · have hk : ((b :: rest).takeWhile (fun b2 => decide (get_buffer_id b2 ∈ acked))).length
          = 0 := by
        simp [List.takeWhile_cons, hb]
      have hpl : popLoop (b :: rest) acked cur log = ⟨b :: rest, acked, cur, log⟩ := by
        rw [popLoop, if_neg hb]
      rw [hpl, hk]
      refine ⟨rfl, by simp, by simp, ?_⟩
      simp [Nat.mod_eq_of_lt hcur]

/-- The queue after acknowledging buffer 2 on the three-buffer queue. -/
def qAck2 : QState := request_pop "a" 2 qThree
/-- Then acknowledging buffer 0. -/
def qAck20 : QState := request_pop "a" 0 qAck2
/-- Then acknowledging buffer 1. -/
def qAck201 : QState := request_pop "a" 1 qAck20

/-- C3: request_pop records the acknowledged id and, in one scan from the
queue head, removes exactly the contiguous prefix of acknowledged buffers
— clearing each removed buffer's ack record, appending its id to the
eviction history in order, and applying one (wrapping u8) cursor decrement
per removal — stopping at the first head buffer not yet acknowledged.  The
general part assumes distinct ids in the queue, a duplicate-free ack set
and a u8-ranged cursor, all of which hold in reachable states.
Consequently, on a queue holding ids [0,1,2], acknowledging 2 first leaves
the queue unchanged, and then acknowledging 0 and then 1 removes 0, 1, 2
in that order. -/
theorem C3_request_pop_prefix_eviction :
    (∀ (s : QState) (c : String) (id : Nat),
      ((s.in_queues c).map get_buffer_id).Nodup →
      (s.pop_requests c).Nodup →
      s.schedule_index c < 256 →
      (request_pop c id s).in_queues c
          = (s.in_queues c).drop
              ((s.in_queues c).takeWhile
                (fun b => decide (get_buffer_id b ∈ setInsert id (s.pop_requests c)))).length
      ∧ (request_pop c id s).evictedLog c
          = s.evictedLog c
            ++ ((s.in_queues c).take
                ((s.in_queues c).takeWhile
                  (fun b => decide (get_buffer_id b ∈ setInsert id (s.pop_requests c)))).length).map
                get_buffer_id
      ∧ (∀ b2 ∈ (s.in_queues c).take
            ((s.in_queues c).takeWhile
              (fun b => decide (get_buffer_id b ∈ setInsert id (s.pop_requests c)))).length,
          get_buffer_id b2 ∉ (request_pop c id s).pop_requests c)
      ∧ (∀ b2, ((request_pop c id s).in_queues c).head? = some b2 →
          get_buffer_id b2 ∉ (request_pop c id s).pop_requests c)
      ∧ (request_pop c id s).schedule_index c
          = (s.schedule_index c
              + 255 * ((s.in_queues c).takeWhile
                  (fun b => decide (get_buffer_id b ∈ setInsert id (s.pop_requests c)))).length) % 256)
    ∧ ((qAck2.in_queues "a").map get_buffer_id = [0, 1, 2]
        ∧ qAck2.evictedLog "a" = []
        ∧ (qAck20.in_queues "a").map get_buffer_id = [1, 2]
        ∧ (qAck201.in_queues "a").map get_buffer_id = []
        ∧ qAck201.evictedLog "a" = [0, 1, 2]) := by
  constructor
  · intro s c id hnd hand hcur
    have hains : (setInsert id (s.pop_requests c)).Nodup := by
      unfold setInsert
      by_cases hi : id ∈ s.pop_requests c
      · simp only [if_pos hi]
        exact hand
      · simp only [if_neg hi]
        simp [List.nodup_append, hand, hi]
    have hp := popLoop_spec (s.in_queues c) (setInsert id (s.pop_requests c))
      (s.schedule_index c) (s.evictedLog c) hnd hains hcur
    unfold request_pop
    simp only [Function.update_same]
    refine ⟨hp.1, hp.2.1, hp.2.2.1, ?_, hp.2.2.2⟩
    intro b2 hb2
    rw [hp.1, drop_length_takeWhile] at hb2
    have hhead := List.head?_dropWhile_not
      (fun b => decide (get_buffer_id b ∈ setInsert id (s.pop_requests c))) (s.in_queues c)
    rw [hb2] at hhead
    simp only [decide_eq_false_iff_not] at hhead
    intro hmem
    exact hhead (popLoop_acked_sub (s.in_queues c) (setInsert id (s.pop_requests c))
      (s.schedule_index c) (s.evictedLog c) _ hmem)
  · refine ⟨by decide, by decide, by decide, by decide, by decide⟩

/-- C3 witness: the general characterization applied to the concrete
three-buffer queue with id 0 acknowledged after id 2: exactly the head
buffer 0 is evicted, its id logged, and the u8 cursor wrap-decremented
from 0 to 255. -/
theorem C3_request_pop_witness :
    (request_pop "a" 0 qAck2).in_queues "a" = (qAck2.in_queues "a").drop 1
    ∧ (request_pop "a" 0 qAck2).evictedLog "a" = [0]
    ∧ (request_pop "a" 0 qAck2).schedule_index "a" = 255 := by
  have h := C3_request_pop_prefix_eviction.1 qAck2 "a" 0 (by decide) (by decide) (by decide)
  have hk : ((qAck2.in_queues "a").takeWhile
      (fun b => decide (get_buffer_id b ∈ setInsert 0 (qAck2.pop_requests "a")))).length = 1 := by
    decide
  refine ⟨?_, ?_, ?_⟩
  · rw [h.1, hk]
  · rw [h.2.1, hk]
    decide
  · rw [h.2.2.2.2, hk]
    decide

/-- Number of buffers the request_pop scan evicts: the length of the
contiguous acknowledged prefix (with ack records consumed as the scan
advances, mirroring popLoop). -/
def popCount : List Nat → List Buffer → Nat
  | _, [] => 0
  | acked, b :: rest =>
    if get_buffer_id b ∈ acked then popCount (acked.erase (get_buffer_id b)) rest + 1
    else 0

theorem popLoop_queue_drop :
    ∀ (queue : List Buffer) (acked : List Nat) (cur : Nat) (log : List Nat),
      (popLoop queue acked cur log).queue = queue.drop (popCount acked queue) := by
  intro queue
  induction queue with
  | nil => intro acked cur log; rfl
  | cons b rest ih =>
    intro acked cur log
    by_cases hb : get_buffer_id b ∈ acked
    · rw [popLoop, if_pos hb, popCount, if_pos hb, ih]
      simp
    · rw [popLoop, if_neg hb, popCount, if_neg hb]
      rfl

theorem popLoop_cursor_of_le :
    ∀ (queue : List Buffer) (acked : List Nat) (cur : Nat) (log : List Nat),
      popCount acked queue ≤ cur → cur < 256 →
      (popLoop queue acked cur log).cursor = cur - popCount acked queue := by
  intro queue
  induction queue with
  | nil => intro acked cur log _ _; simp [popLoop, popCount]
  | cons b rest ih =>
    intro acked cur log hle hcur
    by_cases hb : get_buffer_id b ∈ acked
    · rw [popCount, if_pos hb] at hle ⊢
      rw [popLoop, if_pos hb]
      have h1 : 1 ≤ cur := by omega
      have hwrap : (cur + 255) % 256 = cur - 1 := by omega
      rw [hwrap] at *
      rw [ih (acked.erase (get_buffer_id b)) (cur - 1) (log ++ [get_buffer_id b])
        (by omega) (by omega)]
      omega
    · rw [popCount, if_neg hb] at hle ⊢
      rw [popLoop, if_neg hb]
      simp

theorem popCount_le_length :
    ∀ (acked : List Nat) (queue : List Buffer), popCount acked queue ≤ queue.length := by
  intro acked queue
  induction queue generalizing acked with
  | nil => simp [popCount]
  | cons b rest ih =>
    by_cases hb : get_buffer_id b ∈ acked
    · rw [popCount, if_pos hb]
      simpa using ih (acked.erase (get_buffer_id b))
    · rw [popCount, if_neg hb]
      simp

/-- C7 counterexample: the invariant 0 ≤ schedule_cursor ≤ queue.length is
not preserved by request_pop from a reachable state that satisfies it: a
single try_push followed by request_pop of the stamped id 0 (a buffer that
was never offered by schedule_next) evicts the head with the cursor at 0,
and the wrapping u8 fetch_sub leaves the cursor at 255 over an empty
queue. -/
theorem C7_cursor_invariant_counterexample :
    (try_push "c" [9] QState.init).2.schedule_index "c"
        ≤ (((try_push "c" [9] QState.init).2).in_queues "c").length
    ∧ (request_pop "c" 0 (try_push "c" [9] QState.init).2).schedule_index "c" = 255
    ∧ ((request_pop "c" 0 (try_push "c" [9] QState.init).2).in_queues "c").length = 0 := by
  decide

/-- C7 (amended): the per-channel invariant 0 ≤ schedule_cursor ≤
queue.length holds initially and is preserved by try_push and
schedule_next; request_pop preserves it provided the acknowledged prefix
it evicts is no longer than the channel's cursor (every evicted buffer
already offered by schedule_next — the protocol situation).  Without that
proviso the wrapping u8 decrement can drive the cursor to 255, above the
queue length (see the counterexample).  The lower bound 0 is inherent in
the Nat model of the u8. -/
theorem C7_cursor_invariant_amended :
    (∀ c, QState.init.schedule_index c = 0 ∧ QState.init.in_queues c = [])
    ∧ (∀ (s : QState) (c c0 : String) (p : Payload),
        s.schedule_index c ≤ (s.in_queues c).length →
        ((try_push c0 p s).2).schedule_index c ≤ (((try_push c0 p s).2).in_queues c).length)
    ∧ (∀ (s : QState) (c c0 : String),
        s.schedule_index c ≤ (s.in_queues c).length →
        ((schedule_next c0 s).2).schedule_index c
          ≤ (((schedule_next c0 s).2).in_queues c).length)
    ∧ (∀ (s : QState) (c c0 : String) (id : Nat),
        s.schedule_index c ≤ (s.in_queues c).length →
        s.schedule_index c0 < 256 →
        popCount (setInsert id (s.pop_requests c0)) (s.in_queues c0) ≤ s.schedule_index c0 →
        (request_pop c0 id s).schedule_index c
          ≤ ((request_pop c0 id s).in_queues c).length) := by
  refine ⟨fun c => ⟨rfl, rfl⟩, ?_, ?_, ?_⟩
  · intro s c c0 p h
    by_cases hf : (s.in_queues c0).length = MAX_BUFFERS_PER_CHANNEL
    · simp only [try_push, if_pos hf]
      exact h
    · simp only [try_push, if_neg hf]
      by_cases hc : c = c0
      · subst hc
        simp only [Function.update_same, List.length_append]
        omega
      · simp only [Function.update_noteq hc]
        exact h
  · intro s c c0 h
    by_cases h0 : (s.in_queues c0).length = 0
    · simp only [schedule_next, if_pos h0]
      exact h
    · simp only [schedule_next, if_neg h0]
      by_cases hge : (s.in_queues c0).length % 256 ≤ s.schedule_index c0
      · simp only [if_pos hge]
        exact h
      · simp only [if_neg hge]
        push_neg at hge
        by_cases hc : c = c0
        · subst hc
          simp only [Function.update_same]
          have hmle : (s.in_queues c).length % 256 ≤ (s.in_queues c).length :=
            Nat.mod_le _ _
          have hmod : (s.schedule_index c + 1) % 256 ≤ s.schedule_index c + 1 :=
            Nat.mod_le _ _
          omega
        · simp only [Function.update_noteq hc]
          exact h
  · intro s c c0 id h hcur hk
    simp only [request_pop]
    by_cases hc : c = c0
    · subst hc
      simp only [Function.update_same]
      rw [popLoop_queue_drop, popLoop_cursor_of_le _ _ _ _ hk hcur]
      have hkle := popCount_le_length (setInsert id (s.pop_requests c)) (s.in_queues c)
      simp only [List.length_drop]
      omega
    · simp only [Function.update_noteq hc]
      exact h

/-- C7 witness: the three preservation conjuncts applied at concrete
reachable states: a push onto the fresh queue, a schedule_next on the
three-buffer queue, and a request_pop of the already-offered head buffer 0
with the cursor at 1. -/
theorem C7_cursor_invariant_witness :
    ((try_push "a" [7] QState.init).2).schedule_index "a"
        ≤ (((try_push "a" [7] QState.init).2).in_queues "a").length
    ∧ ((schedule_next "a" qThree).2).schedule_index "a"
        ≤ (((schedule_next "a" qThree).2).in_queues "a").length
    ∧ (request_pop "a" 0 (schedule_next "a" qThree).2).schedule_index "a"
        ≤ ((request_pop "a" 0 (schedule_next "a" qThree).2).in_queues "a").length :=
  ⟨C7_cursor_invariant_amended.2.1 QState.init "a" "a" [7] (by decide),
   C7_cursor_invariant_amended.2.2.1 qThree "a" "a" (by decide),
   C7_cursor_invariant_amended.2.2.2 (schedule_next "a" qThree).2 "a" "a" 0
     (by decide) (by decide) (by decide)⟩

/- ===================================================================
   Claim theorems: try_push and monotonic ids (C4)
   =================================================================== -/

/-- Relation between a channel's u32 sequence counter and its ghost push
history: the counter is the number of successful pushes reduced modulo
2^32, and the stamped ids are 0, 1, 2, … each reduced modulo 2^32. -/
def SeqInv (s : QState) : Prop :=
  ∀ c, s.buffer_ids_seq c = (s.pushedLog c).length % 4294967296
    ∧ s.pushedLog c = (List.range (s.pushedLog c).length).map (fun n => n % 4294967296)

theorem seqInv_init : SeqInv QState.init := by
  intro c
  exact ⟨rfl, rfl⟩

theorem seqInv_qstep (s : QState) (e : QEv) (h : SeqInv s) : SeqInv (qstep s e) := by
  cases e with
  | push c0 p =>
    show SeqInv (try_push c0 p s).2
    by_cases hf : (s.in_queues c0).length = MAX_BUFFERS_PER_CHANNEL
    · simp only [try_push, if_pos hf]
      exact h
    · simp only [try_push, if_neg hf]
      intro c
      by_cases hc : c = c0
      · subst hc
        simp only [Function.update_same]
        obtain ⟨h1, h2⟩ := h c
        constructor
        · simp only [List.length_append, List.length_singleton]
          omega
        · rw [List.length_append, List.length_singleton, List.range_succ, List.map_append]
          rw [← h2, h1]
          simp
      · simp only [Function.update_noteq hc]
        exact h c
  | sched c0 =>
    show SeqInv (schedule_next c0 s).2
    by_cases h0 : (s.in_queues c0).length = 0
    · simp only [schedule_next, if_pos h0]
      exact h
    · simp only [schedule_next, if_neg h0]
      by_cases hge : (s.in_queues c0).length % 256 ≤ s.schedule_index c0
      · simp only [if_pos hge]
        exact h
      · simp only [if_neg hge]
        exact h
  | ack c0 id =>
    show SeqInv (request_pop c0 id s)
    simp only [request_pop]
    exact h

theorem seqInv_runQ (evs : List QEv) : SeqInv (runQ QState.init evs) := by
  unfold runQ
  induction evs using List.reverseRecOn with
  | nil => exact seqInv_init
  | append_singleton evs e ih =>
    rw [List.foldl_append, List.foldl_cons, List.foldl_nil]
    exact seqInv_qstep _ e ih

/-- C4: try_push returns false and leaves the whole state unchanged when
the channel queue holds MAX_BUFFERS_PER_CHANNEL buffers; otherwise it
stamps the current sequence value onto the payload, appends it at the
tail, returns true and advances the channel's u32 counter exactly once,
touching no other channel.  Consequently, over any sequence of BufferQueue
calls from the initial state, the ids stamped on channel c are
0, 1, 2, … in push order, each reduced modulo 2^32 — literally
0, 1, 2, … while fewer than 2^32 pushes have succeeded on c — regardless
of activity on other channels. -/
theorem C4_try_push_spec :
    (∀ (s : QState) (c : String) (p : Payload),
      (s.in_queues c).length = MAX_BUFFERS_PER_CHANNEL → try_push c p s = (false, s))
    ∧ (∀ (s : QState) (c : String) (p : Payload),
        (s.in_queues c).length ≠ MAX_BUFFERS_PER_CHANNEL →
        (try_push c p s).1 = true
        ∧ ((try_push c p s).2).in_queues c
            = s.in_queues c ++ [new_buffer_with_meta p c (s.buffer_ids_seq c)]
        ∧ ((try_push c p s).2).buffer_ids_seq c = (s.buffer_ids_seq c + 1) % 4294967296
        ∧ ((try_push c p s).2).pushedLog c = s.pushedLog c ++ [s.buffer_ids_seq c]
        ∧ (∀ c2, c2 ≠ c →
            ((try_push c p s).2).in_queues c2 = s.in_queues c2
            ∧ ((try_push c p s).2).buffer_ids_seq c2 = s.buffer_ids_seq c2
            ∧ ((try_push c p s).2).pushedLog c2 = s.pushedLog c2))
    ∧ (∀ (evs : List QEv) (c : String),
        (runQ QState.init evs).pushedLog c
            = (List.range ((runQ QState.init evs).pushedLog c).length).map
                (fun n => n % 4294967296)
        ∧ (((runQ QState.init evs).pushedLog c).length < 4294967296 →
            (runQ QState.init evs).pushedLog c
              = List.range ((runQ QState.init evs).pushedLog c).length)) := by
  refine ⟨?_, ?_, ?_⟩
  · intro s c p hf
    simp only [try_push, if_pos hf]
  · intro s c p hf
    simp only [try_push, if_neg hf]
    refine ⟨trivial, by simp [Function.update_same], by simp [Function.update_same],
      by simp [Function.update_same], ?_⟩
    intro c2 hne
    exact ⟨by simp [Function.update_noteq hne], by simp [Function.update_noteq hne],
      by simp [Function.update_noteq hne]⟩
  · intro evs c
    have h := (seqInv_runQ evs) c
    refine ⟨h.2, ?_⟩
    intro hlt
    have hid : ∀ n ∈ List.range ((runQ QState.init evs).pushedLog c).length,
        n % 4294967296 = id n := by
      intro n hn
      rw [List.mem_range] at hn
      simp only [id_eq]
      omega
    conv_lhs => rw [h.2]
    rw [List.map_congr_left hid, List.map_id]

/-- C4 witness: the full-queue refusal on a queue filled by ten pushes,
the success case on the fresh state, and the run-level monotonic ids on a
two-push run. -/
theorem C4_try_push_witness :
    try_push "b" [1] (runQ QState.init (List.replicate 10 (QEv.push "b" [0])))
        = (false, runQ QState.init (List.replicate 10 (QEv.push "b" [0])))
    ∧ (try_push "b" [1] QState.init).1 = true
    ∧ (runQ QState.init [QEv.push "a" [1], QEv.push "a" [2]]).pushedLog "a"
        = List.range ((runQ QState.init [QEv.push "a" [1], QEv.push "a" [2]]).pushedLog "a").length
    ∧ (runQ QState.init [QEv.push "a" [1], QEv.push "a" [2]]).pushedLog "a" = [0, 1] :=
  ⟨C4_try_push_spec.1 _ "b" [1] (by decide),
   (C4_try_push_spec.2.1 QState.init "b" [1] (by decide)).1,
   (C4_try_push_spec.2.2 [QEv.push "a" [1], QEv.push "a" [2]] "a").2 (by decide),
   by decide⟩

/- ===================================================================
   Out-of-order map lemmas and the drain loop invariant (towards C1)
   =================================================================== -/

theorem get_buffer_id_lt (b : Buffer) : get_buffer_id b < 4294967296 :=
  Nat.mod_lt _ (by norm_num)

theorem mlookup_none_forall :
    ∀ (m : IMap) (k : Int), mlookup k m = none → ∀ kb ∈ m, kb.1 ≠ k := by
  intro m k hm kb hkb
  induction m with
  | nil => cases hkb
  | cons hd t ih =>
    rw [mlookup] at hm
    rcases List.mem_cons.1 hkb with he | ht
    · subst he
      by_cases hk : kb.1 = k
      · rw [if_pos hk] at hm
        cases hm
      · exact hk
    · by_cases hk : hd.1 = k
      · rw [if_pos hk] at hm
        cases hm
      · rw [if_neg hk] at hm
        exact ih hm ht

theorem mlookup_eq_none_of_forall :
    ∀ (m : IMap) (k : Int), (∀ kb ∈ m, kb.1 ≠ k) → mlookup k m = none := by
  intro m k h
  induction m with
  | nil => rfl
  | cons hd t ih =>
    rw [mlookup, if_neg (h hd (by simp))]
    exact ih (fun kb hkb => h kb (by simp [hkb]))

theorem mlookup_some_mem :
    ∀ (m : IMap) (k : Int) (b : Buffer), mlookup k m = some b → (k, b) ∈ m := by
  intro m k b hm
  induction m with
  | nil => cases hm
  | cons hd t ih =>
    rw [mlookup] at hm
    by_cases hk : hd.1 = k
    · rw [if_pos hk] at hm
      cases hm
      obtain ⟨k1, b1⟩ := hd
      simp only at hk
      subst hk
      exact List.mem_cons_self _ _
    · rw [if_neg hk] at hm
      exact List.mem_cons_of_mem hd (ih hm)

theorem merase_sublist : ∀ (m : IMap) (k : Int), (merase k m).Sublist m := by
  intro m k
  induction m with
  | nil => exact List.Sublist.refl []
  | cons hd t ih =>
    rw [merase]
    by_cases hk : hd.1 = k
    · rw [if_pos hk]
      exact List.sublist_cons_self hd t
    · rw [if_neg hk]
      exact ih.cons₂ hd

theorem merase_mem {m : IMap} {k : Int} {kb : Int × Buffer} (h : kb ∈ merase k m) :
    kb ∈ m :=
  (merase_sublist m k).subset h

theorem merase_keys_nodup {m : IMap} {k : Int} (h : (m.map Prod.fst).Nodup) :
    ((merase k m).map Prod.fst).Nodup :=
  ((merase_sublist m k).map Prod.fst).nodup h

theorem merase_ne_key :
    ∀ (m : IMap) (k : Int), (m.map Prod.fst).Nodup → ∀ kb ∈ merase k m, kb.1 ≠ k := by
  intro m k hnd kb hkb
  induction m with
  | nil => cases hkb
  | cons hd t ih =>
    simp only [List.map_cons, List.nodup_cons] at hnd
    rw [merase] at hkb
    by_cases hk : hd.1 = k
    · rw [if_pos hk] at hkb
      intro he
      exact hnd.1 (hk ▸ he ▸ List.mem_map_of_mem Prod.fst hkb)
    · rw [if_neg hk] at hkb
      rcases List.mem_cons.1 hkb with he | ht
      · subst he
        exact hk
      · exact ih hnd.2 ht

theorem drainGo_of_lookup_none (c : String) (fuel : Nat) (m : IMap)
    (outQ : List (String × Buffer)) (acks : List AckMessage) (next : Int) (cfg : Nat)
    (h : mlookup next m = none) :
    drainGo c fuel m outQ acks next cfg = ⟨m, outQ, acks, next⟩ := by
  cases fuel with
  | zero => rfl
  | succ fuel => rw [drainGo, h]

theorem drainGo_of_full (c : String) (fuel : Nat) (m : IMap)
    (outQ : List (String × Buffer)) (acks : List AckMessage) (next : Int) (cfg : Nat)
    (b : Buffer) (h : mlookup next m = some b) (hf : outQ.length = cfg) :
    drainGo c (fuel + 1) m outQ acks next cfg = ⟨m, outQ, acks, next⟩ := by
  simp only [drainGo, h, if_pos hf]

theorem drainGo_step (c : String) (fuel : Nat) (m : IMap)
    (outQ : List (String × Buffer)) (acks : List AckMessage) (next : Int) (cfg : Nat)
    (b : Buffer) (h : mlookup next m = some b) (hf : ¬outQ.length = cfg) :
    drainGo c (fuel + 1) m outQ acks next cfg
      = drainGo c fuel (merase next m) (outQ ++ [(c, b)])
          (acks ++ [⟨c, get_buffer_id b⟩]) (wrap32 (next + 1)) cfg := by
  simp only [drainGo, h, if_neg hf]

/-- Invariant of the contiguous drain loop: starting from a map whose keys
are distinct i32 values at or above next (all below 2^31, each entry's
buffer id matching its key) and a non-negative next below 2^31, the loop
delivers some j contiguous entries next, next+1, …, next+j-1 in order
(tagged with the drained channel), the stored watermark value
wrap32(final next - 1) equals next + j - 1 (the i32 wrap at 2^31
self-corrects), and the remaining entries keep the invariant above
next + j. -/
theorem drainGo_spec :
    ∀ (fuel : Nat) (m : IMap) (c : String) (outQ : List (String × Buffer))
      (acks : List AckMessage) (next : Int) (cfg : Nat),
      (m.map Prod.fst).Nodup →
      (∀ kb ∈ m, next ≤ kb.1 ∧ kb.1 < 2147483648 ∧ (get_buffer_id kb.2 : Int) = kb.1) →
      0 ≤ next → next < 2147483648 →
      ∃ (j : Nat) (L : List (String × Buffer)),
        (drainGo c fuel m outQ acks next cfg).outQ = outQ ++ L
        ∧ L.map Prod.fst = List.replicate j c
        ∧ L.map (fun e => get_buffer_id e.2) = (List.range j).map (fun i => next.toNat + i)
        ∧ wrap32 ((drainGo c fuel m outQ acks next cfg).next - 1) = next + j - 1
        ∧ next + j - 1 < 2147483648
        ∧ (((drainGo c fuel m outQ acks next cfg).m).map Prod.fst).Nodup
        ∧ (∀ kb ∈ (drainGo c fuel m outQ acks next cfg).m,
            next + j ≤ kb.1 ∧ kb.1 < 2147483648 ∧ (get_buffer_id kb.2 : Int) = kb.1) := by
  intro fuel
  induction fuel with
  | zero =>
    intro m c outQ acks next cfg hnd hent hnn hub
    have h0 : drainGo c 0 m outQ acks next cfg = ⟨m, outQ, acks, next⟩ := rfl
    rw [h0]
    refine ⟨0, [], by simp, rfl, rfl,
      by simpa using wrap32_eq_self (next - 1) (by omega) (by omega),
      by push_cast; omega, by simpa using hnd, by simpa using hent⟩
  | succ fuel ih =>
    intro m c outQ acks next cfg hnd hent hnn hub
    cases hl : mlookup next m with
    | none =>
      rw [drainGo_of_lookup_none c (fuel + 1) m outQ acks next cfg hl]
      refine ⟨0, [], by simp, rfl, rfl,
        by simpa using wrap32_eq_self (next - 1) (by omega) (by omega),
        by push_cast; omega, by simpa using hnd, by simpa using hent⟩
    | some b =>
      by_cases hf : outQ.length = cfg
      · rw [drainGo_of_full c fuel m outQ acks next cfg b hl hf]
        refine ⟨0, [], by simp, rfl, rfl,
          by simpa using wrap32_eq_self (next - 1) (by omega) (by omega),
          by push_cast; omega, by simpa using hnd, by simpa using hent⟩
      · rw [drainGo_step c fuel m outQ acks next cfg b hl hf]
        have hmem : (next, b) ∈ m := mlookup_some_mem m next b hl
        have hbid : (get_buffer_id b : Int) = next := (hent (next, b) hmem).2.2
        have hbid2 : get_buffer_id b = next.toNat := by omega
        have hnd2 : ((merase next m).map Prod.fst).Nodup := merase_keys_nodup hnd
        have hent2 : ∀ kb ∈ merase next m,
            next + 1 ≤ kb.1 ∧ kb.1 < 2147483648 ∧ (get_buffer_id kb.2 : Int) = kb.1 := by
          intro kb hkb
          have h1 := hent kb (merase_mem hkb)
          have h2 := merase_ne_key m next hnd kb hkb
          exact ⟨by omega, h1.2.1, h1.2.2⟩
        by_cases hn : next + 1 < 2147483648
        · have hwr : wrap32 (next + 1) = next + 1 := wrap32_eq_self _ (by omega) hn
          rw [hwr]
          obtain ⟨j, L, hQ, hT, hI, hW, hB, hN, hE⟩ :=
            ih (merase next m) c (outQ ++ [(c, b)])
              (acks ++ [⟨c, get_buffer_id b⟩]) (next + 1) cfg hnd2 hent2 (by omega) hn
          refine ⟨j + 1, (c, b) :: L, ?_, ?_, ?_, ?_, ?_, hN, ?_⟩
          · rw [hQ]
            simp
          · simp only [List.map_cons, hT, List.replicate_succ]
          · simp only [List.map_cons, hI, List.range_succ_eq_map, List.map_map]
            rw [hbid2]
            have htn : (next + 1).toNat = next.toNat + 1 := by omega
            rw [htn]
            refine List.cons_eq_cons.2 ⟨by omega, ?_⟩
            apply List.map_congr_left
            intro i hi
            simp only [Function.comp]
            omega
          · rw [hW]
            push_cast
            omega
          · push_cast
            omega
          · intro kb hkb
            have h3 := hE kb hkb
            refine ⟨by push_cast; omega, h3.2.1, h3.2.2⟩
        · have hn2 : next + 1 = 2147483648 := by omega
          have hwr : wrap32 (next + 1) = -2147483648 := by
            rw [hn2]
            decide
          rw [hwr]
          have hnone : mlookup (-2147483648) (merase next m) = none := by
            apply mlookup_eq_none_of_forall
            intro kb hkb
            have h1 := hent2 kb hkb
            omega
          rw [drainGo_of_lookup_none _ _ _ _ _ _ _ hnone]
          refine ⟨1, [(c, b)], by simp, by simp, ?_, ?_, by omega, hnd2, ?_⟩
          · simp [hbid2, List.range_succ]
          · have : wrap32 (-2147483648 - 1) = 2147483647 := by decide
            rw [this]
            omega
          · intro kb hkb
            have h1 := hent2 kb hkb
            omega

/- ===================================================================
   The per-channel receive invariant and its preservation (C1)
   =================================================================== -/

/-- Per-channel receive invariant of the DataReader: the watermark lies in
[-1, 2^31), the out-of-order keys are distinct, every out-of-order entry
sits strictly above the watermark below 2^31 with its buffer id matching
its key, and the ids delivered to the output stream for the channel are
exactly 0, 1, …, watermark in order. -/
def RInv (s : RState) : Prop :=
  ∀ c,
    (-1 ≤ s.watermark c ∧ s.watermark c < 2147483648)
    ∧ ((s.ooo c).map Prod.fst).Nodup
    ∧ (∀ kb ∈ s.ooo c, s.watermark c < kb.1 ∧ kb.1 < 2147483648
        ∧ (get_buffer_id kb.2 : Int) = kb.1)
    ∧ deliveredIds c s = List.range (s.watermark c + 1).toNat

theorem rinv_init (chs : List String) (cfg : Nat) : RInv (RState.init chs cfg) := by
  intro c
  constructor
  · constructor <;> norm_num [RState.init]
  constructor
  · simp [RState.init]
  constructor
  · intro kb hkb
    simp [RState.init] at hkb
  · rfl

theorem tag_filter_self {L : List (String × Buffer)} {j : Nat} {c : String}
    (h : L.map Prod.fst = List.replicate j c) :
    L.filter (fun e => e.1 = c) = L := by
  rw [List.filter_eq_self]
  intro e he
  have hm : e.1 ∈ L.map Prod.fst := List.mem_map_of_mem Prod.fst he
  rw [h] at hm
  simp [List.eq_of_mem_replicate hm]

theorem tag_filter_other {L : List (String × Buffer)} {j : Nat} {c : String}
    (h : L.map Prod.fst = List.replicate j c) (c2 : String) (hne : c2 ≠ c) :
    L.filter (fun e => e.1 = c2) = [] := by
  rw [List.filter_eq_nil_iff]
  intro e he
  have hm : e.1 ∈ L.map Prod.fst := List.mem_map_of_mem Prod.fst he
  rw [h] at hm
  have he1 : e.1 = c := List.eq_of_mem_replicate hm
  simp [he1]
  exact fun hh => hne hh.symm

theorem processBuffer_rinv (c0 : String) (b : Buffer) (s : RState) (h : RInv s) :
    RInv (processBuffer c0 b s) := by
  by_cases h1' : toI32 (get_buffer_id b) ≤ s.watermark c0
  · intro c
    simp only [processBuffer, if_pos h1']
    exact h c
  · by_cases h2' : (mlookup (toI32 (get_buffer_id b)) (s.ooo c0)).isSome = true
    · intro c
      simp only [processBuffer, if_neg h1', if_pos h2']
      exact h c
    · have h2n : mlookup (toI32 (get_buffer_id b)) (s.ooo c0) = none :=
        Option.not_isSome_iff_eq_none.1 (by simpa using h2')
      push_neg at h1'
      obtain ⟨hwmlb, hwmub⟩ := (h c0).1
      have hnn : 0 ≤ toI32 (get_buffer_id b) := by omega
      obtain ⟨hbidlt, hbideq⟩ := toI32_nonneg_elim (get_buffer_id b) (get_buffer_id_lt b) hnn
      rw [hbideq] at h1'
      have hbcast : (get_buffer_id b : Int) < 2147483648 := by exact_mod_cast hbidlt
      have hnotin : ∀ kb ∈ s.ooo c0, kb.1 ≠ toI32 (get_buffer_id b) :=
        mlookup_none_forall _ _ h2n
      have hnd1 : ((minsert (toI32 (get_buffer_id b)) b (s.ooo c0)).map Prod.fst).Nodup := by
        unfold minsert
        rw [List.map_append, List.nodup_append]
        refine ⟨(h c0).2.1, by simp, ?_⟩
        intro x hx hy
        obtain ⟨kb, hkb, hkbx⟩ := List.mem_map.1 hx
        rw [List.map_cons, List.map_nil, List.mem_singleton] at hy
        exact hnotin kb hkb (by rw [hkbx, hy])
      have hent1 : ∀ kb ∈ minsert (toI32 (get_buffer_id b)) b (s.ooo c0),
          s.watermark c0 + 1 ≤ kb.1 ∧ kb.1 < 2147483648
            ∧ (get_buffer_id kb.2 : Int) = kb.1 := by
        intro kb hkb
        rcases List.mem_append.1 hkb with hold | hnew
        · have h3 := (h c0).2.2.1 kb hold
          exact ⟨by omega, h3.2.1, h3.2.2⟩
        · simp only [List.mem_singleton] at hnew
          subst hnew
          exact ⟨by rw [hbideq]; omega, by rw [hbideq]; omega, by rw [hbideq]⟩
      have hwr1 : wrap32 (s.watermark c0 + 1) = s.watermark c0 + 1 :=
        wrap32_eq_self _ (by omega) (by omega)
      obtain ⟨j, L, hQ, hT, hI, hW, hB, hN, hE⟩ :=
        drainGo_spec (minsert (toI32 (get_buffer_id b)) b (s.ooo c0)).length
          (minsert (toI32 (get_buffer_id b)) b (s.ooo c0)) c0 s.outQ []
          (s.watermark c0 + 1) s.cfg hnd1 hent1 (by omega) (by omega)
      intro c
      simp only [processBuffer, if_neg (by omega : ¬toI32 (get_buffer_id b) ≤ s.watermark c0),
        if_neg h2', hwr1]
      by_cases hc : c = c0
      · subst hc
        simp only [Function.update_same]
        refine ⟨⟨by omega, by omega⟩, hN, ?_, ?_⟩
        · intro kb hkb
          have h3 := hE kb hkb
          exact ⟨by omega, h3.2.1, h3.2.2⟩
        · have hdel := (h c).2.2.2
          unfold deliveredIds at hdel ⊢
          rw [hQ, List.filter_append, List.map_append, tag_filter_self hT, hI,
            ← List.append_assoc, hdel, hW, ← List.range_add]
          have harg : (s.watermark c + 1).toNat + j
              = (s.watermark c + 1 + (j : Int) - 1 + 1).toNat := by
            omega
          rw [harg]
      · simp only [Function.update_noteq hc]
        refine ⟨(h c).1, (h c).2.1, (h c).2.2.1, ?_⟩
        have hdel := (h c).2.2.2
        unfold deliveredIds at hdel ⊢
        rw [hQ, List.filter_append, List.map_append, tag_filter_other hT c hc]
        simp only [List.map_nil, List.append_nil]
        exact hdel

theorem channelVisit_rinv (s : RState) (c : String) (h : RInv s) :
    RInv (channelVisit s c) := by
  unfold channelVisit
  by_cases hf : s.outQ.length = s.cfg
  · rw [if_pos hf]
    exact h
  · rw [if_neg hf]
    split
    · exact h
    · exact processBuffer_rinv c _ _ (fun c2 => h c2)

theorem foldl_visit_rinv :
    ∀ (l : List String) (s : RState), RInv s → RInv (l.foldl channelVisit s) := by
  intro l
  induction l with
  | nil => intro s h; exact h
  | cons c cs ih =>
    intro s h
    rw [List.foldl_cons]
    exact ih _ (channelVisit_rinv s c h)

theorem read_bytes_rinv (s : RState) (h : RInv s) : RInv (read_bytes s).2 := by
  unfold read_bytes
  cases hq : s.outQ with
  | nil => exact h
  | cons e rest =>
    obtain ⟨c0, b0⟩ := e
    intro c
    refine ⟨(h c).1, (h c).2.1, (h c).2.2.1, ?_⟩
    have hdel := (h c).2.2.2
    unfold deliveredIds at hdel ⊢
    rw [hq, List.filter_cons] at hdel
    rw [List.filter_append, List.map_append, List.append_assoc]
    by_cases hc : c0 = c
    · rw [if_pos (by simp [hc])] at hdel
      rw [List.map_cons] at hdel
      have hfil : List.filter (fun p => p.1 = c) [((c0, get_buffer_id b0) : String × Nat)]
          = [(c0, get_buffer_id b0)] := by
        simp [hc]
      rw [hfil]
      simpa using hdel
    · rw [if_neg (by simp [hc])] at hdel
      have hfil : List.filter (fun p => p.1 = c) [((c0, get_buffer_id b0) : String × Nat)]
          = [] := by
        simp [hc]
      rw [hfil, List.map_nil, List.nil_append]
      exact hdel

theorem rstep_rinv (s : RState) (e : REv) (h : RInv s) : RInv (rstep s e) := by
  cases e with
  | feed c b =>
    intro c2
    exact h c2
  | visit c => exact channelVisit_rinv s c h
  | sweep => exact foldl_visit_rinv s.channels s h
  | pop => exact read_bytes_rinv s h

theorem runR_rinv (chs : List String) (cfg : Nat) (evs : List REv) :
    RInv (runR (RState.init chs cfg) evs) := by
  unfold runR
  induction evs using List.reverseRecOn with
  | nil => exact rinv_init chs cfg
  | append_singleton evs e ih =>
    rw [List.foldl_append, List.foldl_cons, List.foldl_nil]
    exact rstep_rinv _ e ih

/-- C1: for every channel and every sequence of dispatcher events
(buffers fed to the recv feeds in any order, with duplicates; channel
visits and sweeps in any order; consumer polls at any time), the ids
delivered to the shared output stream for that channel are exactly
0, 1, …, W in order (W the channel's final watermark) — strictly
increasing, each id at most once, no gaps — and the consumer observes
through read_bytes exactly an initial segment 0, 1, …, k-1 of them: never
a duplicate, a gap, or a reordering within a channel. -/
theorem C1_per_channel_order (chs : List String) (cfg : Nat) (evs : List REv) (c : String) :
    deliveredIds c (runR (RState.init chs cfg) evs)
        = List.range ((runR (RState.init chs cfg) evs).watermark c + 1).toNat
    ∧ observedIds c (runR (RState.init chs cfg) evs)
        = List.range (observedIds c (runR (RState.init chs cfg) evs)).length := by
  have h := runR_rinv chs cfg evs c
  refine ⟨h.2.2.2, ?_⟩
  have hdel := h.2.2.2
  have hsplit : deliveredIds c (runR (RState.init chs cfg) evs)
      = observedIds c (runR (RState.init chs cfg) evs)
        ++ ((runR (RState.init chs cfg) evs).outQ.filter (fun e => e.1 = c)).map
            (fun e => get_buffer_id e.2) := rfl
  rw [hsplit] at hdel
  have htake := congrArg
    (List.take (observedIds c (runR (RState.init chs cfg) evs)).length) hdel
  rw [List.take_left, List.take_range] at htake
  have hl := congrArg List.length hdel
  rw [List.length_append, List.length_range] at hl
  have hmin : min (observedIds c (runR (RState.init chs cfg) evs)).length
      ((runR (RState.init chs cfg) evs).watermark c + 1).toNat
      = (observedIds c (runR (RState.init chs cfg) evs)).length := by
    omega
  rw [hmin] at htake
  exact htake
